import Mathlib

/-!
Verification of the Cobotta remote-control prototype (`denso_control.py`,
`denso_robot.py`, `mqtt_control_utils/angle.py`, `mqtt_control_utils/transform.py`).

The Python source works on IEEE doubles; we embed its arithmetic over `ℚ`
(planner, driver, error codes — all exactly representable operations) and over
`ℝ` (the Softplus interpolator `get_diff_factors`, which uses `log`/`exp`).
Concrete inputs used in counterexamples are chosen to be exactly representable
as binary doubles so the idealised arithmetic agrees with the float run.
-/

namespace Cobotta

/-! ### Angle normalisation (`mqtt_control_utils/angle.py`)

`norm_angle_360(x) = x % 360` with Python float-`%` semantics (result in
`[0, 360)` for positive modulus), `norm_angle_180(x) = (x + 180) % 360 - 180`. -/

def normAngle360 (x : ℚ) : ℚ := x - 360 * ⌊x / 360⌋

def normAngle180 (x : ℚ) : ℚ := normAngle360 (x + 180) - 180

/-! ### Poses

A pose is the 6-tuple `[x, y, z, xd, yd, zd]` (position mm, angles deg). -/

structure Pose6 where
  x : ℚ
  y : ℚ
  z : ℚ
  xd : ℚ
  yd : ℚ
  zd : ℚ
deriving DecidableEq

def zeroPose : Pose6 := ⟨0, 0, 0, 0, 0, 0⟩

def Pose6.add (p q : Pose6) : Pose6 :=
  ⟨p.x + q.x, p.y + q.y, p.z + q.z, p.xd + q.xd, p.yd + q.yd, p.zd + q.zd⟩

def Pose6.sub (p q : Pose6) : Pose6 :=
  ⟨p.x - q.x, p.y - q.y, p.z - q.z, p.xd - q.xd, p.yd - q.yd, p.zd - q.zd⟩

def Pose6.smul (c : ℚ) (p : Pose6) : Pose6 :=
  ⟨c * p.x, c * p.y, c * p.z, c * p.xd, c * p.yd, c * p.zd⟩

/-- Source `norm_pose_360`: wrap only the three angular components into `[0, 360)`. -/
def normPose360 (p : Pose6) : Pose6 :=
  { p with xd := normAngle360 p.xd, yd := normAngle360 p.yd, zd := normAngle360 p.zd }

/-- Source `norm_pose_180`: wrap only the three angular components into `[-180, 180)`. -/
def normPose180 (p : Pose6) : Pose6 :=
  { p with xd := normAngle180 p.xd, yd := normAngle180 p.yd, zd := normAngle180 p.zd }

/-! ### Coordinate transform (`mqtt_control_utils/transform.py`)

`Transform.__call__` computes `out[i] = in[permute[i]] * sign[i]`; construction
only ever produces signed permutations within the positional half and within
the rotational half. -/

structure Transform6 where
  permute : Fin 6 → Fin 6
  sign : Fin 6 → ℚ

def Pose6.comp (p : Pose6) : Fin 6 → ℚ := fun i =>
  match i with
  | 0 => p.x
  | 1 => p.y
  | 2 => p.z
  | 3 => p.xd
  | 4 => p.yd
  | 5 => p.zd

def Transform6.apply (tf : Transform6) (p : Pose6) : Pose6 :=
  ⟨p.comp (tf.permute 0) * tf.sign 0,
   p.comp (tf.permute 1) * tf.sign 1,
   p.comp (tf.permute 2) * tf.sign 2,
   p.comp (tf.permute 3) * tf.sign 3,
   p.comp (tf.permute 4) * tf.sign 4,
   p.comp (tf.permute 5) * tf.sign 5⟩

/-- The default `Transform()` (identity permutation, all signs `+1`). -/
def idTransform : Transform6 := ⟨id, fun _ => 1⟩

/-! ### Control planner (`DensoControl.on_target`, `denso_control.py`)

The planner is a callback fed one target message per invocation.  Its mutable
state is `is_reset`, the last normalised target `lx..lzd`, and the two anchors
`base_robot` / `base_mqtt`.  (In the source the anchors are only created on the
first arming; we carry them as always-present fields, which the source never
reads before arming.)

The interpolator table is carried in the configuration: `defaultFactors` is the
precomputed `self.diff_factors` and `getFactors t_lim` stands for
`get_diff_factors(t_lim, self.robot_interval)[1]`.  The planner only pipes
these values through; the table itself is verified separately below over `ℝ`. -/

inductive AngleUnit
  | deg
  | rad
deriving DecidableEq

structure Pad where
  b0 : ℤ
  bA : Bool
deriving DecidableEq

/-- An incoming JSON message: `pos` (the `x`/`y`/`z` entries) if present, and
the optional `pad`.  The `ori` entries are not modelled because the source
reads them nowhere (the reading code is commented out). -/
structure TargetMsg where
  pos : Option (ℚ × ℚ × ℚ)
  pad : Option Pad

structure PlannerCfg where
  scale : ℚ
  unit : AngleUnit
  useAllTarget : Bool
  vLimPos : ℚ
  vLimRot : ℚ
  controlInterval : ℚ
  defaultFactors : List ℚ
  getFactors : ℚ → List ℚ

structure PlannerState where
  isReset : Bool
  lastPose : Pose6
  baseRobot : Pose6
  baseMqtt : Pose6
deriving DecidableEq

/-- Source `DensoControl.reset_pose`: zero the last target and mark the reset state
(the anchors are left untouched). -/
def resetPose (st : PlannerState) : PlannerState :=
  { st with isReset := true, lastPose := zeroPose }

/-- The data-acquisition head of `on_target` (lines 210-237): the hardcoded
axis mapping `x := -pos.x`, `y := pos.z`, `z := pos.y`, angular components set
to `0` (the `Transform` call and the `ori` reads are commented out in the
source), then position scaling, the `rad` branch multiplying angles by `180`,
and the wrap of each angle into `[0, 360)`. -/
def normalizeInput (scale : ℚ) (unit : AngleUnit) (p : ℚ × ℚ × ℚ) : Pose6 :=
  let x := -p.1
  let y := p.2.2
  let z := p.2.1
  let xd : ℚ := 0
  let yd : ℚ := 0
  let zd : ℚ := 0
  let x := x * scale
  let y := y * scale
  let z := z * scale
  let xd := if unit = AngleUnit.rad then xd * 180 else xd
  let yd := if unit = AngleUnit.rad then yd * 180 else yd
  let zd := if unit = AngleUnit.rad then zd * 180 else zd
  ⟨x, y, z, normAngle360 xd, normAngle360 yd, normAngle360 zd⟩

def maxAbsPos (p : Pose6) : ℚ := max (max |p.x| |p.y|) |p.z|

def maxAbsRot (p : Pose6) : ℚ := max (max |p.xd| |p.yd|) |p.zd|

/-- The series-generation block of `on_target` (lines 304-349): relative
target and robot poses, the remaining difference, the velocity-limit time
stretch, the factor-table choice, and the absolute commanded poses. -/
def makeSeries (cfg : PlannerCfg) (st : PlannerState) (robotPose : Pose6)
    (t : Pose6) : List Pose6 :=
  let targetRel := normPose360 (t.sub st.baseMqtt)
  let baseRel := normPose360 (robotPose.sub st.baseRobot)
  let diff := normPose180 (targetRel.sub baseRel)
  let tLimPos := maxAbsPos diff / cfg.vLimPos
  let tLimRot := maxAbsRot diff / cfg.vLimRot
  let tLim := max tLimPos tLimRot
  let factors := if tLim ≤ cfg.controlInterval then cfg.defaultFactors
    else cfg.getFactors tLim
  factors.map (fun f => normPose360 ((st.baseRobot.add baseRel).add (Pose6.smul f diff)))

/-- Source `DensoControl.on_target`.  `valid` is the value of the shared flag
`v_base_pose` observed when the message is processed (in `wait_for_robot` mode
the source busy-waits until it is `1`, so processing continues exactly when
`valid = true` — the same condition as in live mode); `robotPose` is the
shared `arr_base_pose`.  Returns the new state and the series enqueued on
`q_control_poses`, if any. -/
def onTarget (cfg : PlannerCfg) (st : PlannerState) (valid : Bool)
    (robotPose : Pose6) (msg : TargetMsg) : PlannerState × Option (List Pose6) :=
  match msg.pos with
  | none => (st, none)
  | some p =>
    let t := normalizeInput cfg.scale cfg.unit p
    if st.isReset then
      if valid then
        ({ st with baseRobot := robotPose, baseMqtt := t, lastPose := t,
                   isReset := false }, none)
      else (st, none)
    else
      if cfg.useAllTarget = true ∨ t ≠ st.lastPose then
        let st1 := { st with lastPose := t }
        match msg.pad with
        | none => (st1, none)
        | some pd =>
          let out := if pd.b0 ≠ 1 then some (makeSeries cfg st robotPose t) else none
          let st2 := if pd.bA then resetPose st1 else st1
          (st2, out)
      else (st, none)

/-- Feed a list of messages through `on_target` with a fixed shared flag and
shared pose, collecting every enqueued series in order. -/
def runPlanner (cfg : PlannerCfg) (valid : Bool) (robotPose : Pose6) :
    PlannerState → List TargetMsg → PlannerState × List (List Pose6)
  | st, [] => (st, [])
  | st, m :: ms =>
    let r := onTarget cfg st valid robotPose m
    let rest := runPlanner cfg valid robotPose r.1 ms
    (rest.1, r.2.toList ++ rest.2)

/-! ### Robot error taxonomy (`denso_robot.py`, lines 16-69 and `try_restart`) -/

def errBase : ℤ := 4294967296

def origToPy (e : ℤ) : ℤ := e - errBase

def E_BUF_FULL : ℤ := origToPy 0x83201483
def E_ORDER_DELAY : ℤ := origToPy 0x84201482
def E_MOTOR_ON_WHILE_OFF_TRANSITION : ℤ := origToPy 0x8350106e
def E_ACCEL_LARGE_JOINTS : List ℤ := (List.range 8).map (fun i => origToPy (0x84204041 + i))
def E_VEL_LARGE_JOINTS : List ℤ := (List.range 8).map (fun i => origToPy (0x84204051 + i))
def E_NOT_IN_SLAVE_MODE : ℤ := origToPy 0x83500121
def E_MOTOR_OFF : ℤ := origToPy 0x81501003

/-- An exception raised by `move_pose_servo`: either an `ORiNException`
carrying its `hresult` (the `type(e) is ORiNException` check is exact), or
anything else. -/
inductive RobotExc
  | orin (hresult : ℤ)
  | other
deriving DecidableEq

/-- Source `DensoRobot.try_restart`: classify the exception; on the recoverable codes
the source runs `recover_automatic_servo()` and `sleep(1)` and returns `True`,
otherwise it returns `False`.  (Failures of the recovery procedure itself
propagate as exceptions rather than a return value and are not modelled.) -/
def tryRestart : RobotExc → Bool
  | RobotExc.orin hr =>
    decide (hr < 0) &&
      decide (hr ∈ E_VEL_LARGE_JOINTS ++ E_ACCEL_LARGE_JOINTS ++
        [E_NOT_IN_SLAVE_MODE] ++ [E_MOTOR_OFF] ++ [E_ORDER_DELAY])
  | RobotExc.other => false

/-! ### Servo driver tick loop (`run_robot`, `denso_control.py` lines 399-480)

State of one loop iteration: the pending FIFO contents of `q_control_poses`
(an unbounded `multiprocessing.Queue`), the current series and its cursor
`i_pose` / `n_poses`, and the shared feedback `arr_base_pose` / `v_base_pose`.
`n_poses` is a separate field because the restart branch sets `i_pose = 0`,
`n_poses = 0` without clearing `control_poses`; in every reachable state with
`iPose < nPoses` we have `nPoses = controlPoses.length`, so the `getD` default
is never read. -/

structure DriverState where
  queue : List (List Pose6)
  controlPoses : List Pose6
  iPose : ℕ
  nPoses : ℕ
  arrBasePose : Pose6
  valid : Bool
deriving DecidableEq

structure TickResult where
  state : DriverState
  emitted : Option Pose6
  stopped : Bool
deriving DecidableEq

/-- The non-blocking `q_control_poses.get(timeout=1e-6)` at the top of the
loop: on success the new series replaces the current one and the cursor
resets; on `queue.Empty` nothing changes. -/
def pollQueue (s : DriverState) : DriverState :=
  match s.queue with
  | [] => s
  | cp :: rest =>
    { s with queue := rest, controlPoses := cp, nPoses := cp.length, iPose := 0 }

/-- The body after the poll.  `robotPose` is what `robot.get_current_pose()`
returns this tick; `moveErr` is `none` when `move_pose_servo` succeeds.  The
Python guard `i_pose <= n_poses - 1` over ints is `iPose < nPoses`.  On
success the source stores the *commanded* pose into `arr_base_pose`
(`arr_base_pose[i] = control_pose[i]`, lines 463-465); the pose read from the
robot is stored only in the restart branch and in the idle branch. -/
def tickBody (s : DriverState) (robotPose : Pose6) (moveErr : Option RobotExc) :
    TickResult :=
  if s.iPose < s.nPoses then
    let cp := s.controlPoses.getD s.iPose zeroPose
    match moveErr with
    | none =>
      ⟨{ s with arrBasePose := cp, valid := true, iPose := s.iPose + 1 },
       some cp, false⟩
    | some e =>
      if tryRestart e then
        ⟨{ s with arrBasePose := robotPose, valid := true, iPose := 0, nPoses := 0 },
         none, false⟩
      else
        ⟨s, none, true⟩
  else
    ⟨{ s with arrBasePose := robotPose, valid := true }, none, false⟩

/-- One full iteration of the `while True:` control loop. -/
def tick (s : DriverState) (robotPose : Pose6) (moveErr : Option RobotExc) :
    TickResult :=
  tickBody (pollQueue s) robotPose moveErr

/-- Source `q_control_poses.put(control_poses)` performed by the planner process:
appends to the unbounded FIFO. -/
def putSeries (s : DriverState) (cp : List Pose6) : DriverState :=
  { s with queue := s.queue ++ [cp] }

/-- Run `n` consecutive ticks in which every `slvMove` succeeds and the robot
reports the fixed pose `robotPose`, collecting the emitted commanded poses. -/
def runTicks (robotPose : Pose6) : DriverState → ℕ → List Pose6
  | _, 0 => []
  | s, Nat.succ k =>
    let r := tick s robotPose none
    r.emitted.toList ++ runTicks robotPose r.state k

/-! ### Concrete fixtures used by counterexamples and witnesses -/

def onesPose : Pose6 := ⟨1, 1, 1, 1, 1, 1⟩

def twosPose : Pose6 := ⟨2, 2, 2, 2, 2, 2⟩

/-- The default pose set in `DensoRobot.start` (`[560, 150, 460, 180, 0, 90]`). -/
def rpW : Pose6 := ⟨560, 150, 460, 180, 0, 90⟩

/-- A planner configuration with the constructor defaults
(`scale_mqtt_vs_real = 1`, degrees, `use_all_target = False`,
`control_interval = 0.05`) and a trivial one-entry factor table. -/
def cfgW : PlannerCfg := ⟨1, AngleUnit.deg, false, 200, 50, 1/20, [1], fun _ => [1]⟩

/-- The planner state right after construction (`reset_pose` has run). -/
def st0W : PlannerState := ⟨true, zeroPose, zeroPose, zeroPose⟩

/-- An armed planner state anchored at the origin. -/
def stArmedW : PlannerState := ⟨false, zeroPose, zeroPose, zeroPose⟩

/-- The stationary-scenario message: `pos = (0,0,0)`, default pad. -/
def msgStationary : TargetMsg := ⟨some (0, 0, 0), some ⟨0, false⟩⟩

/-- A message with `pad.bA` pressed (`b0 = 1`, so no series is emitted). -/
def msgBA : TargetMsg := ⟨some (1, 2, 3), some ⟨1, true⟩⟩

/-- Normalisation pipeline as C3 states it, specialised to a `deg` session
(the claim's `rad` branch converts by `180/π` and is not needed to settle the
claim): apply the configured transform to the full input 6-tuple, scale the
position components, and wrap each angle into `[0°, 360°)`. -/
def claimNormalize (tf : Transform6) (scale : ℚ) (pos ori : ℚ × ℚ × ℚ) : Pose6 :=
  let t := tf.apply ⟨pos.1, pos.2.1, pos.2.2, ori.1, ori.2.1, ori.2.2⟩
  ⟨t.x * scale, t.y * scale, t.z * scale,
   normAngle360 t.xd, normAngle360 t.yd, normAngle360 t.zd⟩

/-! ### Softplus interpolator (`get_diff_factors`, `denso_control.py` 104-144)

The source computes over IEEE doubles; we embed the two interval arguments as
exact rationals and the transcendental sample values over `ℝ`.  Counterexample
inputs are chosen exactly representable in binary so the float floor-division
`2 * ti // ci` agrees with the exact one. -/

/-- Softplus: `softplus(x) = log(1 + exp(x))`. -/
noncomputable def softplus (x : ℝ) : ℝ := Real.log (1 + Real.exp x)

/-- The ramp sample count `n = 2 * ti // ci`. -/
def nRamp (ti ci : ℚ) : ℕ := (⌊2 * ti / ci⌋).toNat

/-- The ramp value at 0-based index `i`: the source's
`ys[i] = 1 - softplus(-xs[i]) / softplus(xlim)` with `xlim = 4`,
`xs[i] = ts[i] / ti * xlim` and (pre-shift) `ts[i] = -ti + (i + 1) * ci`. -/
noncomputable def diffFactor (ti ci : ℚ) (i : ℕ) : ℝ :=
  1 - softplus (-((-(ti : ℝ) + ((i : ℝ) + 1) * (ci : ℝ)) / (ti : ℝ) * 4)) / softplus 4

/-- The factor series `ys` returned by `get_diff_factors`: `n` ramp samples
followed by the appended stop signal `ys_add = np.ones(int(n // 2))` — hold
samples of exactly `1.0`. -/
noncomputable def diffFactors (ti ci : ℚ) : List ℝ :=
  (List.range (nRamp ti ci)).map (diffFactor ti ci) ++
    List.replicate (nRamp ti ci / 2) 1

/-- The time series `ts` returned by `get_diff_factors` (after the `ts += ti`
shift, with the appended hold times): `ts[i] = (i + 1) * ci` throughout. -/
def diffTimes (ti ci : ℚ) : List ℚ :=
  (List.range (nRamp ti ci + nRamp ti ci / 2)).map (fun i => ((i : ℚ) + 1) * ci)

/-- The value asserted by the source's comment at `denso_control.py` 128-130:
`1 - (softplus(0) - softplus(-4)) / (softplus(4) - softplus(-4))`, which the
comment equates to `0.8312506868394661` and presents as the fraction of the
target difference reached at `t = target_interval`. -/
noncomputable def softplusDocFactorAtT : ℝ :=
  1 - (softplus 0 - softplus (-4)) / (softplus 4 - softplus (-4))

/-! ### C1 — what the driver writes to `SharedFeedback` on a successful tick -/

/-- C1 counterexample: a tick whose `slvMove` succeeds with commanded pose
`(1,…,1)` while the robot reports `(2,…,2)` stores `(1,…,1)` — the commanded
pose — in `arr_base_pose`, not the pose just read from the robot, contrary to
the claim. -/
theorem c1_counterexample :
    (tick ⟨[], [onesPose], 0, 1, zeroPose, true⟩ twosPose none).state.arrBasePose
        ≠ twosPose ∧
    (tick ⟨[], [onesPose], 0, 1, zeroPose, true⟩ twosPose none).state.arrBasePose
        = onesPose := by
  decide

/-- C1 (amended): on every tick with no newly queued series, an unexhausted
series and a successful `slvMove`, the driver emits the current commanded pose
and stores that commanded pose (not the pose read back from the robot) into
`SharedFeedback`, setting the valid flag; so the planner subsequently reads
the most recently *commanded* pose. -/
theorem c1_amended (s : DriverState) (rp : Pose6)
    (h1 : s.queue = []) (h2 : s.iPose < s.nPoses) :
    (tick s rp none).emitted = some (s.controlPoses.getD s.iPose zeroPose) ∧
    (tick s rp none).state.arrBasePose = s.controlPoses.getD s.iPose zeroPose ∧
    (tick s rp none).state.valid = true := by
  have hp : pollQueue s = s := by
    unfold pollQueue
    rw [h1]
  unfold tick
  rw [hp]
  unfold tickBody
  rw [if_pos h2]
  exact ⟨rfl, rfl, rfl⟩

/-- C1 witness: the amended theorem applied to a concrete one-pose series. -/
theorem c1_witness :
    (tick ⟨[], [onesPose], 0, 1, zeroPose, true⟩ twosPose none).emitted
        = some ((DriverState.mk [] [onesPose] 0 1 zeroPose true).controlPoses.getD
            (DriverState.mk [] [onesPose] 0 1 zeroPose true).iPose zeroPose) ∧
    (tick ⟨[], [onesPose], 0, 1, zeroPose, true⟩ twosPose none).state.arrBasePose
        = (DriverState.mk [] [onesPose] 0 1 zeroPose true).controlPoses.getD
            (DriverState.mk [] [onesPose] 0 1 zeroPose true).iPose zeroPose ∧
    (tick ⟨[], [onesPose], 0, 1, zeroPose, true⟩ twosPose none).state.valid = true :=
  c1_amended ⟨[], [onesPose], 0, 1, zeroPose, true⟩ twosPose rfl (by decide)

/-! ### C3 — normalisation of incoming messages in the Armed state -/

/-- C3 counterexample: with the identity transform supplied at construction,
scale 1 and degree input, the message `pos = (1,2,3)`, `ori = (0,0,0)` is
normalised by the code to `(-1, 3, 2, 0, 0, 0)`, not to the claimed
transform-scale-wrap result `(1, 2, 3, 0, 0, 0)`: the configured `Transform`
is never applied (its call is commented out in the source). -/
theorem c3_counterexample :
    normalizeInput 1 AngleUnit.deg (1, 2, 3)
      ≠ claimNormalize idTransform 1 (1, 2, 3) (0, 0, 0) := by
  simp only [normalizeInput, claimNormalize, idTransform, Transform6.apply,
    Pose6.comp, normAngle360, ne_eq, Pose6.mk.injEq, not_and]
  norm_num

/-- C3 (amended): for every scale, angle unit and input position the Armed
normalisation equals the hardcoded mapping
`(-pos.x·s, pos.z·s, pos.y·s, 0, 0, 0)`: the configured transform and the
`ori` field are ignored, the angular components are zeroed (so the `rad`
branch, which multiplies by 180 rather than 180/π, acts only on zeros), and
the wrap into `[0°, 360°)` fixes `0`. -/
theorem c3_amended (scale : ℚ) (unit : AngleUnit) (p : ℚ × ℚ × ℚ) :
    normalizeInput scale unit p =
      ⟨-p.1 * scale, p.2.2 * scale, p.2.1 * scale, 0, 0, 0⟩ := by
  cases unit <;> simp [normalizeInput, normAngle360]

/-! ### C9 — classification of recoverable servo faults -/

/-- C9: `try_restart` returns `true` exactly for `ORiNException`s whose code
is a per-joint velocity-too-high code, a per-joint acceleration-too-high code,
not-in-slave-mode, motor-off, or commanded-value-generation-delay; all those
codes are negative; and whenever it returns `false` for the exception raised
by `slvMove`, the tick loop stops (the session terminates). -/
theorem c9_try_restart :
    (∀ e : RobotExc, tryRestart e = true ↔
      ∃ hr : ℤ, e = RobotExc.orin hr ∧
        hr ∈ E_VEL_LARGE_JOINTS ++ E_ACCEL_LARGE_JOINTS ++
          [E_NOT_IN_SLAVE_MODE] ++ [E_MOTOR_OFF] ++ [E_ORDER_DELAY]) ∧
    (∀ hr ∈ E_VEL_LARGE_JOINTS ++ E_ACCEL_LARGE_JOINTS ++
        [E_NOT_IN_SLAVE_MODE] ++ [E_MOTOR_OFF] ++ [E_ORDER_DELAY], hr < 0) ∧
    (∀ (s : DriverState) (rp : Pose6) (e : RobotExc),
      s.iPose < s.nPoses → s.queue = [] → tryRestart e = false →
      (tick s rp (some e)).stopped = true) := by
  have hneg : ∀ hr ∈ E_VEL_LARGE_JOINTS ++ E_ACCEL_LARGE_JOINTS ++
      [E_NOT_IN_SLAVE_MODE] ++ [E_MOTOR_OFF] ++ [E_ORDER_DELAY], hr < 0 := by
    decide
  refine ⟨?_, hneg, ?_⟩
  · intro e
    cases e with
    | orin hr =>
      simp only [tryRestart, Bool.and_eq_true, decide_eq_true_eq]
      constructor
      · rintro ⟨-, hmem⟩
        exact ⟨hr, rfl, hmem⟩
      · rintro ⟨hr', heq, hmem⟩
        cases heq
        exact ⟨hneg hr hmem, hmem⟩
    | other =>
      simp [tryRestart]
  · intro s rp e h1 h2 h3
    have hp : pollQueue s = s := by
      unfold pollQueue
      rw [h2]
    unfold tick
    rw [hp]
    unfold tickBody
    rw [if_pos h1]
    simp [h3]

/-- C9 witness: the motor-off code is classified recoverable, and a non-ORiN
exception during an active series stops the loop. -/
theorem c9_witness :
    tryRestart (RobotExc.orin E_MOTOR_OFF) = true ∧
    (tick ⟨[], [onesPose], 0, 1, zeroPose, true⟩ twosPose
        (some RobotExc.other)).stopped = true :=
  ⟨(c9_try_restart.1 (RobotExc.orin E_MOTOR_OFF)).mpr ⟨E_MOTOR_OFF, rfl, by decide⟩,
   c9_try_restart.2.2 ⟨[], [onesPose], 0, 1, zeroPose, true⟩ twosPose
     RobotExc.other (by decide) rfl rfl⟩

/-! ### C10 — messages without a `pad` key only update `last_target` -/

/-- C10: in the Armed state a message carrying `pos` but no `pad` whose
normalised 6-tuple differs from `last_target` only replaces `last_target`
(anchors and the Reset/Armed flag unchanged) and enqueues nothing; and for
every message without a `pad` key nothing is enqueued and the planner never
enters Reset. -/
theorem c10_frame :
    (∀ (cfg : PlannerCfg) (st : PlannerState) (valid : Bool) (rp : Pose6)
        (m : TargetMsg) (p : ℚ × ℚ × ℚ),
      st.isReset = false → m.pos = some p → m.pad = none →
      normalizeInput cfg.scale cfg.unit p ≠ st.lastPose →
      onTarget cfg st valid rp m =
        ({ st with lastPose := normalizeInput cfg.scale cfg.unit p }, none)) ∧
    (∀ (cfg : PlannerCfg) (st : PlannerState) (valid : Bool) (rp : Pose6)
        (m : TargetMsg),
      m.pad = none →
      (onTarget cfg st valid rp m).2 = none ∧
      ((onTarget cfg st valid rp m).1.isReset = true → st.isReset = true)) := by
  constructor
  · rintro cfg st valid rp ⟨mpos, mpad⟩ p hreset hpos hpad hne
    cases hpos
    cases hpad
    have hr2 : ¬(st.isReset = true) := by simp [hreset]
    simp only [onTarget]
    rw [if_neg hr2, if_pos (Or.inr hne)]
  · rintro cfg st valid rp ⟨mpos, mpad⟩ hpad
    cases hpad
    cases mpos with
    | none => exact ⟨rfl, fun h => h⟩
    | some p =>
      by_cases hreset : st.isReset = true
      · by_cases hv : valid = true
        · simp [onTarget, hreset, hv]
        · simp [onTarget, hreset, hv]
      · by_cases hcond : cfg.useAllTarget = true ∨
            normalizeInput cfg.scale cfg.unit p ≠ st.lastPose
        · simp only [onTarget]
          rw [if_neg hreset, if_pos hcond]
          exact ⟨rfl, fun h => h⟩
        · simp only [onTarget]
          rw [if_neg hreset, if_neg hcond]
          exact ⟨rfl, fun h => h⟩

/-- C10 witness: the frame theorem applied to a concrete armed state and a
concrete pad-less message. -/
theorem c10_witness :
    onTarget cfgW stArmedW true rpW ⟨some (1, 2, 3), none⟩ =
      ({ stArmedW with lastPose := normalizeInput cfgW.scale cfgW.unit (1, 2, 3) },
        none) ∧
    (onTarget cfgW stArmedW true rpW ⟨some (1, 2, 3), none⟩).2 = none ∧
    ((onTarget cfgW stArmedW true rpW ⟨some (1, 2, 3), none⟩).1.isReset = true →
      stArmedW.isReset = true) :=
  ⟨c10_frame.1 cfgW stArmedW true rpW ⟨some (1, 2, 3), none⟩ (1, 2, 3)
      rfl rfl rfl
      (by simp only [normalizeInput, cfgW, stArmedW, zeroPose, normAngle360,
            ne_eq, Pose6.mk.injEq, not_and]
          norm_num),
   (c10_frame.2 cfgW stArmedW true rpW ⟨some (1, 2, 3), none⟩ rfl).1,
   (c10_frame.2 cfgW stArmedW true rpW ⟨some (1, 2, 3), none⟩ rfl).2⟩

/-! ### C4 — the stationary scenario enqueues nothing -/

/-- Helper: in the Armed state with `use_all_target = False`, a message whose
normalised tuple equals `last_target` is a complete no-op. -/
lemma onTarget_unchanged (cfg : PlannerCfg) (st : PlannerState) (valid : Bool)
    (rp : Pose6) (mpad : Option Pad) (p : ℚ × ℚ × ℚ)
    (h1 : st.isReset = false) (h3 : cfg.useAllTarget = false)
    (h4 : normalizeInput cfg.scale cfg.unit p = st.lastPose) :
    onTarget cfg st valid rp ⟨some p, mpad⟩ = (st, none) := by
  have hr2 : ¬(st.isReset = true) := by simp [h1]
  have hcond : ¬(cfg.useAllTarget = true ∨
      normalizeInput cfg.scale cfg.unit p ≠ st.lastPose) := by
    simp [h3, h4]
  simp only [onTarget]
  rw [if_neg hr2, if_neg hcond]

/-- Helper: a state fixed by `on_target` under a message stays fixed under any
number of repetitions, with nothing enqueued. -/
lemma runPlanner_replicate_fix (cfg : PlannerCfg) (valid : Bool) (rp : Pose6)
    (m : TargetMsg) (st : PlannerState)
    (h : onTarget cfg st valid rp m = (st, none)) :
    ∀ n, runPlanner cfg valid rp st (List.replicate n m) = (st, []) := by
  intro n
  induction n with
  | zero => rfl
  | succ n ih =>
    rw [List.replicate_succ]
    simp only [runPlanner, h, ih]
    rfl

/-- Helper: one unfolding step of `runPlanner`, phrased through the result of
the first `on_target` call. -/
lemma runPlanner_cons (cfg : PlannerCfg) (valid : Bool) (rp : Pose6)
    (st : PlannerState) (m : TargetMsg) (ms : List TargetMsg)
    (st2 : PlannerState) (out : Option (List Pose6))
    (h : onTarget cfg st valid rp m = (st2, out)) :
    runPlanner cfg valid rp st (m :: ms) =
      ((runPlanner cfg valid rp st2 ms).1,
       out.toList ++ (runPlanner cfg valid rp st2 ms).2) := by
  simp only [runPlanner, h]

/-- C4 counterexample: from the freshly reset planner with the shared flag
already valid, ten identical stationary messages (`pos = (0,0,0)`, default
pad) enqueue *zero* PoseSeries — not the claimed "exactly one": the first
message after arm only locks the anchors, and every later identical message is
a no-op. -/
theorem c4_counterexample :
    (runPlanner cfgW true rpW st0W (List.replicate 10 msgStationary)).2.length ≠ 1 := by
  have hstep : onTarget cfgW st0W true rpW msgStationary =
      (⟨false, zeroPose, rpW, zeroPose⟩, none) := by
    simp only [onTarget, msgStationary, st0W, cfgW, if_true]
    simp only [Prod.mk.injEq, PlannerState.mk.injEq]
    norm_num [normalizeInput, normAngle360, zeroPose, Pose6.mk.injEq]
  have hnoop : onTarget cfgW (⟨false, zeroPose, rpW, zeroPose⟩ : PlannerState)
      true rpW msgStationary = (⟨false, zeroPose, rpW, zeroPose⟩, none) := by
    have := onTarget_unchanged cfgW ⟨false, zeroPose, rpW, zeroPose⟩ true rpW
      (some ⟨0, false⟩) (0, 0, 0) rfl rfl
      (by norm_num [normalizeInput, cfgW, normAngle360, zeroPose, Pose6.mk.injEq])
    exact this
  rw [show (10 : ℕ) = 9 + 1 from rfl, List.replicate_succ,
    runPlanner_cons cfgW true rpW st0W msgStationary _ _ _ hstep,
    runPlanner_replicate_fix cfgW true rpW msgStationary _ hnoop 9]
  simp

/-- C4 (amended): with `use_all_target = False` and the shared flag valid,
feeding any number of copies of one message (with a `pos` field) to the
freshly reset planner enqueues *no* PoseSeries at all: the first message locks
the anchors and arms the planner, and every subsequent identical message
leaves the planner state unchanged. -/
theorem c4_amended (cfg : PlannerCfg) (st0 : PlannerState) (rp : Pose6)
    (mpad : Option Pad) (p : ℚ × ℚ × ℚ) (n : ℕ)
    (hu : cfg.useAllTarget = false) (hr : st0.isReset = true) :
    (onTarget cfg st0 true rp ⟨some p, mpad⟩).2 = none ∧
    runPlanner cfg true rp st0 (List.replicate (n + 1) ⟨some p, mpad⟩) =
      ((onTarget cfg st0 true rp ⟨some p, mpad⟩).1, []) := by
  have hstep : onTarget cfg st0 true rp ⟨some p, mpad⟩ =
      ((⟨false, normalizeInput cfg.scale cfg.unit p, rp,
          normalizeInput cfg.scale cfg.unit p⟩ : PlannerState), none) := by
    simp only [onTarget]
    rw [if_pos hr]
    simp
  have hnoop : onTarget cfg
      ((⟨false, normalizeInput cfg.scale cfg.unit p, rp,
          normalizeInput cfg.scale cfg.unit p⟩ : PlannerState)) true rp
        ⟨some p, mpad⟩ =
      ((⟨false, normalizeInput cfg.scale cfg.unit p, rp,
          normalizeInput cfg.scale cfg.unit p⟩ : PlannerState), none) :=
    onTarget_unchanged cfg _ true rp mpad p rfl hu rfl
  constructor
  · rw [hstep]
  · rw [List.replicate_succ,
      runPlanner_cons cfg true rp st0 ⟨some p, mpad⟩ _ _ _ hstep,
      runPlanner_replicate_fix cfg true rp ⟨some p, mpad⟩ _ hnoop n, hstep]
    rfl

/-- C4 witness: the amended theorem at the concrete stationary scenario
(ten copies of `pos = (0,0,0)` with the default pad). -/
theorem c4_witness :
    cfgW.useAllTarget = false ∧ st0W.isReset = true ∧
    ((onTarget cfgW st0W true rpW ⟨some (0, 0, 0), some ⟨0, false⟩⟩).2 = none ∧
     runPlanner cfgW true rpW st0W
         (List.replicate 10 ⟨some (0, 0, 0), some ⟨0, false⟩⟩) =
       ((onTarget cfgW st0W true rpW ⟨some (0, 0, 0), some ⟨0, false⟩⟩).1, [])) :=
  ⟨rfl, rfl, c4_amended cfgW st0W rpW (some ⟨0, false⟩) (0, 0, 0) 9 rfl rfl⟩

/-! ### C5 — what two consecutive `bA` messages actually do -/

/-- Helper: the normalised stationary test pose `(1,2,3)` differs from the
zero pose. -/
lemma normalizeW_ne : normalizeInput cfgW.scale cfgW.unit (1, 2, 3) ≠ zeroPose := by
  simp only [normalizeInput, cfgW, zeroPose, normAngle360, ne_eq,
    Pose6.mk.injEq, not_and]
  norm_num

/-- C5 counterexample: from an armed planner (shared flag valid), two
consecutive messages with `pad.bA = true` do *not* leave the planner in
Reset: the first resets it, but the second is handled by the Reset branch,
which ignores the pad and immediately re-arms, so the planner ends Armed. -/
theorem c5_counterexample :
    ((onTarget cfgW (onTarget cfgW stArmedW true rpW msgBA).1 true rpW msgBA).1).isReset
      ≠ true := by
  have hr2 : ¬(stArmedW.isReset = true) := by simp [stArmedW]
  have hcond : cfgW.useAllTarget = true ∨
      normalizeInput cfgW.scale cfgW.unit (1, 2, 3) ≠ stArmedW.lastPose :=
    Or.inr normalizeW_ne
  have h1 : (onTarget cfgW stArmedW true rpW msgBA).1 = st0W := by
    simp only [onTarget, msgBA]
    rw [if_neg hr2, if_pos hcond]
    simp [resetPose, stArmedW, st0W]
  rw [h1]
  simp only [onTarget, msgBA, st0W, if_true]
  simp

/-- C5 (amended): a `bA` message received in the Armed state (with a changed
target, so the pad is reached) puts the planner into Reset, but the *next*
message carrying a `pos` field — whatever its pad — immediately re-arms it
when the shared flag is valid, deterministically setting the anchors to
`base_robot := SharedFeedback.last_robot_pose` and `base_target :=` its own
normalised tuple; so two consecutive `bA` messages leave the planner Armed,
and identical inputs re-arm the anchors identically. -/
theorem c5_amended (cfg : PlannerCfg) (st : PlannerState) (rp : Pose6)
    (p1 p2 : ℚ × ℚ × ℚ) (pd1 : Pad) (mpad2 : Option Pad)
    (h1 : st.isReset = false) (h4 : pd1.bA = true)
    (h5 : normalizeInput cfg.scale cfg.unit p1 ≠ st.lastPose) :
    ((onTarget cfg st true rp ⟨some p1, some pd1⟩).1.isReset = true) ∧
    (onTarget cfg (onTarget cfg st true rp ⟨some p1, some pd1⟩).1 true rp
        ⟨some p2, mpad2⟩).1 =
      ⟨false, normalizeInput cfg.scale cfg.unit p2, rp,
        normalizeInput cfg.scale cfg.unit p2⟩ := by
  have hr2 : ¬(st.isReset = true) := by simp [h1]
  have hstep1 : (onTarget cfg st true rp ⟨some p1, some pd1⟩).1 =
      resetPose { st with lastPose := normalizeInput cfg.scale cfg.unit p1 } := by
    simp only [onTarget]
    rw [if_neg hr2, if_pos (Or.inr h5)]
    simp [h4]
  constructor
  · rw [hstep1]
    rfl
  · rw [hstep1]
    simp [onTarget, resetPose]

/-- C5 witness: the amended theorem at the concrete `bA` message
`pos = (1,2,3)`, `pad = {b0: 1, bA: true}` sent twice to an armed planner. -/
theorem c5_witness :
    ((onTarget cfgW stArmedW true rpW ⟨some (1, 2, 3), some ⟨1, true⟩⟩).1.isReset
        = true) ∧
    (onTarget cfgW
        (onTarget cfgW stArmedW true rpW ⟨some (1, 2, 3), some ⟨1, true⟩⟩).1 true rpW
        ⟨some (1, 2, 3), some ⟨1, true⟩⟩).1 =
      ⟨false, normalizeInput cfgW.scale cfgW.unit (1, 2, 3), rpW,
        normalizeInput cfgW.scale cfgW.unit (1, 2, 3)⟩ :=
  c5_amended cfgW stArmedW rpW (1, 2, 3) (1, 2, 3) ⟨1, true⟩ (some ⟨1, true⟩)
    rfl rfl normalizeW_ne

/-! ### C2 — hand-off channel semantics -/

/-- Helper: with an empty queue and an exhausted series, successful ticks emit
nothing and leave the queue and cursor unchanged. -/
lemma runTicks_idle (rp : Pose6) : ∀ (k : ℕ) (s : DriverState),
    s.queue = [] → s.nPoses ≤ s.iPose → runTicks rp s k = [] := by
  intro k
  induction k with
  | zero => intro s _ _; rfl
  | succ k ih =>
    intro s hq hn
    have hp : pollQueue s = s := by
      unfold pollQueue
      rw [hq]
    have hlt : ¬(s.iPose < s.nPoses) := by omega
    simp only [runTicks, tick, hp, tickBody, if_neg hlt]
    simp only [Option.toList, List.nil_append]
    exact ih _ hq hn

/-- Helper: with an empty queue, the driver emits the rest of its current
series in order, one pose per successful tick, then idles. -/
lemma runTicks_drain (rp : Pose6) : ∀ (m k : ℕ) (B : List Pose6) (j : ℕ)
    (a : Pose6) (v : Bool), j + m = B.length →
    runTicks rp ⟨[], B, j, B.length, a, v⟩ (m + k) = B.drop j := by
  intro m
  induction m with
  | zero =>
    intro k B j a v h
    rw [Nat.zero_add,
      runTicks_idle rp k ⟨[], B, j, B.length, a, v⟩ rfl (show B.length ≤ j by omega)]
    exact (List.drop_eq_nil_of_le (by omega)).symm
  | succ m ih =>
    intro k B j a v h
    have hj : j < B.length := by omega
    rw [show m + 1 + k = (m + k) + 1 from by omega]
    simp only [runTicks, tick, pollQueue, tickBody, if_pos hj]
    simp only [Option.toList, List.singleton_append]
    rw [ih k B (j + 1) _ _ (by omega)]
    rw [List.getD_eq_getElem B zeroPose hj]
    exact (List.drop_eq_getElem_cons hj).symm

/-- Helper: a driver in any cursor state whose queue holds exactly the series
`B` emits exactly `B` over the next `B.length + k` successful ticks. -/
lemma runTicks_dequeue (rp : Pose6) (B cps : List Pose6) (j n : ℕ) (a : Pose6)
    (v : Bool) (k : ℕ) :
    runTicks rp ⟨[B], cps, j, n, a, v⟩ (B.length + k) = B := by
  cases B with
  | nil =>
    cases k with
    | zero => rfl
    | succ k =>
      simp only [List.length_nil, Nat.zero_add]
      simp only [runTicks, tick, pollQueue, tickBody]
      simp only [List.length_nil]
      rw [if_neg (lt_irrefl 0)]
      simp only [Option.toList, List.nil_append]
      exact runTicks_idle rp k ⟨[], [], 0, 0, rp, true⟩ rfl (le_refl 0)
  | cons b B2 =>
    have hlen : (b :: B2).length + k = (B2.length + k) + 1 := by
      simp only [List.length_cons]
      omega
    rw [hlen]
    simp only [runTicks, tick, pollQueue, tickBody]
    rw [if_pos (by simp)]
    simp only [Option.toList, List.singleton_append]
    rw [runTicks_drain rp B2.length k (b :: B2) 1 _ _
      (by simp only [List.length_cons]; omega)]
    simp [List.getD]

/-- C2 counterexample: enqueueing series `B` while series `A` is still queued
does not replace `A` — the unbounded FIFO retains both — and the driver,
which had consumed nothing of `A`, then emits the head of `A` followed by all
of `B`, not `B` alone as the claim's replace-semantics implies. -/
theorem c2_counterexample :
    (putSeries (putSeries ⟨[], [], 0, 0, zeroPose, false⟩ [onesPose])
        [twosPose, rpW]).queue ≠ [[twosPose, rpW]] ∧
    runTicks zeroPose (putSeries (putSeries ⟨[], [], 0, 0, zeroPose, false⟩
        [onesPose]) [twosPose, rpW]) 3 ≠ [twosPose, rpW] := by
  constructor <;> decide

/-- C2 (amended): the hand-off queue is an unbounded FIFO, so a later
enqueue never replaces a pending series; if the planner enqueues `A` then `B`
before the idle driver consumes anything of `A`, the driver dequeues one
series per tick and therefore emits exactly the *first pose* of `A` (a
one-element prefix, not a possibly-empty one) followed by all of `B`. -/
theorem c2_amended (rp a : Pose6) (cps : List Pose6) (i0 n0 : ℕ) (v : Bool)
    (A B : List Pose6) (k : ℕ) (hA : A ≠ []) (_hidle : n0 ≤ i0) :
    runTicks rp (putSeries (putSeries ⟨[], cps, i0, n0, a, v⟩ A) B)
        (1 + (B.length + k)) = A.take 1 ++ B := by
  cases A with
  | nil => exact absurd rfl hA
  | cons a0 A2 =>
    have hq : putSeries (putSeries ⟨[], cps, i0, n0, a, v⟩ (a0 :: A2)) B =
        ⟨[a0 :: A2, B], cps, i0, n0, a, v⟩ := rfl
    rw [hq, show 1 + (B.length + k) = (B.length + k) + 1 from by omega]
    simp only [runTicks, tick, pollQueue, tickBody]
    rw [if_pos (by simp)]
    simp only [Option.toList, List.singleton_append, Nat.zero_add]
    rw [runTicks_dequeue rp B (a0 :: A2) 1 (a0 :: A2).length
      ((a0 :: A2).getD 0 zeroPose) true k]
    simp [List.getD]

/-- C2 witness: the amended theorem at `A = [(1,…,1)]`,
`B = [(2,…,2), default]`, one trailing idle tick. -/
theorem c2_witness :
    ([onesPose] : List Pose6) ≠ [] ∧ (0 : ℕ) ≤ 0 ∧
    runTicks zeroPose (putSeries (putSeries ⟨[], [], 0, 0, zeroPose, false⟩
        [onesPose]) [twosPose, rpW]) (1 + ([twosPose, rpW].length + 1)) =
      [onesPose].take 1 ++ [twosPose, rpW] :=
  ⟨by simp, le_refl 0,
   c2_amended zeroPose zeroPose [] 0 0 false [onesPose] [twosPose, rpW] 1
     (by simp) (le_refl 0)⟩

/-! ### C6 — length of the factor series -/

/-- C6 counterexample: at `T = 5`, `h = 2` (exact binary floats) the code
produces `n = ⌊2T/h⌋ = 5` ramp samples plus `int(n // 2) = 2` hold samples —
7 entries — not the claimed `n + ⌈n/2⌉ = 8`. -/
theorem c6_counterexample :
    (diffFactors 5 2).length = 7 ∧ 7 ≠ nRamp 5 2 + (nRamp 5 2 + 1) / 2 := by
  have hn : nRamp 5 2 = 5 := by
    norm_num [nRamp]
    decide
  refine ⟨?_, ?_⟩
  · simp [diffFactors, hn]
  · rw [hn]
    decide

/-- C6 (amended): for every target interval `T` and robot period `h` with
`0 < h ≤ T`, the factor series has length `⌊2T/h⌋ + ⌊⌊2T/h⌋ / 2⌋` — the hold
tail has `⌊n/2⌋` entries (`int(n // 2)` in the source), not `⌈n/2⌉`. -/
theorem c6_amended (ti ci : ℚ) (_h0 : 0 < ci) (_h1 : ci ≤ ti) :
    (diffFactors ti ci).length = nRamp ti ci + nRamp ti ci / 2 := by
  simp [diffFactors]

/-- C6 witness: the amended length formula at `T = 5`, `h = 2`. -/
theorem c6_witness :
    (0 : ℚ) < 2 ∧ (2 : ℚ) ≤ 5 ∧
    (diffFactors 5 2).length = nRamp 5 2 + nRamp 5 2 / 2 :=
  ⟨by norm_num, by norm_num, c6_amended 5 2 (by norm_num) (by norm_num)⟩

/-! ### C8 — shape of the factor series -/

lemma softplus_nonneg (x : ℝ) : 0 ≤ softplus x := by
  unfold softplus
  exact Real.log_nonneg (by linarith [Real.exp_pos x])

lemma softplus_four_pos : 0 < softplus 4 := by
  unfold softplus
  exact Real.log_pos (by linarith [Real.exp_pos (4 : ℝ)])

lemma softplus_mono {a b : ℝ} (h : a ≤ b) : softplus a ≤ softplus b := by
  unfold softplus
  exact Real.log_le_log (by positivity) (by linarith [Real.exp_le_exp.2 h])

lemma diffFactor_le_one (ti ci : ℚ) (i : ℕ) : diffFactor ti ci i ≤ 1 := by
  unfold diffFactor
  have h1 := softplus_nonneg (-((-(ti : ℝ) + ((i : ℝ) + 1) * (ci : ℝ)) / (ti : ℝ) * 4))
  have h2 := softplus_four_pos
  have h3 := div_nonneg h1 h2.le
  linarith

lemma diffFactor_mono (ti ci : ℚ) (h0 : 0 < ci) (hti : 0 < ti) (i : ℕ) :
    diffFactor ti ci i ≤ diffFactor ti ci (i + 1) := by
  unfold diffFactor
  have hci : (0 : ℝ) < (ci : ℝ) := by exact_mod_cast h0
  have hti2 : (0 : ℝ) < (ti : ℝ) := by exact_mod_cast hti
  have hx : (-(ti : ℝ) + ((i : ℝ) + 1) * (ci : ℝ)) / (ti : ℝ) * 4 ≤
      (-(ti : ℝ) + (((i + 1 : ℕ) : ℝ) + 1) * (ci : ℝ)) / (ti : ℝ) * 4 := by
    have hnum : (-(ti : ℝ) + ((i : ℝ) + 1) * (ci : ℝ)) ≤
        (-(ti : ℝ) + (((i + 1 : ℕ) : ℝ) + 1) * (ci : ℝ)) := by
      push_cast
      nlinarith
    have := (div_le_div_right hti2).mpr hnum
    nlinarith
  have hsp := softplus_mono (neg_le_neg hx)
  have h2 := softplus_four_pos
  have := (div_le_div_right h2).mpr hsp
  linarith

lemma chain_replicate_one (m : ℕ) :
    List.Chain' (fun a b : ℝ => a ≤ b) (List.replicate m 1) := by
  induction m with
  | zero => simp
  | succ m ih =>
    rw [List.replicate_succ, List.chain'_cons']
    refine ⟨?_, ih⟩
    intro y hy
    cases m with
    | zero => simp at hy
    | succ m =>
      rw [List.replicate_succ] at hy
      simp at hy
      rw [hy]

/-- C8 (amended): for `0 < h ≤ T` the factor series is monotone
non-decreasing, its last element is exactly `1.0`, and its final `⌊n/2⌋`
entries (the hold tail the code actually appends — `int(n // 2)` entries, not
`⌈n/2⌉`) all equal exactly `1.0`. -/
theorem c8_amended (ti ci : ℚ) (h0 : 0 < ci) (h1 : ci ≤ ti) :
    List.Chain' (· ≤ ·) (diffFactors ti ci) ∧
    (diffFactors ti ci).getLast? = some 1 ∧
    ∀ v ∈ (diffFactors ti ci).drop (nRamp ti ci), v = (1 : ℝ) := by
  have hti : 0 < ti := lt_of_lt_of_le h0 h1
  have hfloor : (2 : ℤ) ≤ ⌊2 * ti / ci⌋ := by
    rw [Int.le_floor]
    rw [show ((2 : ℤ) : ℚ) = 2 from rfl, show (2 : ℚ) * ti / ci = 2 * (ti / ci) from by ring]
    have : (1 : ℚ) ≤ ti / ci := (one_le_div h0).mpr h1
    linarith
  have hn2 : 2 ≤ nRamp ti ci := by
    unfold nRamp
    omega
  have hhold : 1 ≤ nRamp ti ci / 2 := by omega
  refine ⟨?_, ?_, ?_⟩
  · unfold diffFactors
    rw [List.chain'_append]
    refine ⟨?_, ?_, ?_⟩
    · rw [List.chain'_map]
      obtain ⟨k, hk⟩ : ∃ k, nRamp ti ci = k + 1 := ⟨nRamp ti ci - 1, by omega⟩
      rw [hk]
      rw [show k + 1 = Nat.succ k from rfl, List.chain'_range_succ]
      intro m _
      exact diffFactor_mono ti ci h0 hti m
    · exact chain_replicate_one _
    · intro x hx y hy
      have hx2 : x ∈ (List.range (nRamp ti ci)).map (diffFactor ti ci) :=
        List.mem_of_mem_getLast? hx
      obtain ⟨i, -, rfl⟩ := List.mem_map.mp hx2
      have hy2 : y = 1 := by
        obtain ⟨k, hk⟩ : ∃ k, nRamp ti ci / 2 = k + 1 := ⟨nRamp ti ci / 2 - 1, by omega⟩
        rw [hk, List.replicate_succ] at hy
        simp at hy
        exact hy.symm
      rw [hy2]
      exact diffFactor_le_one ti ci i
  · unfold diffFactors
    obtain ⟨k, hk⟩ : ∃ k, nRamp ti ci / 2 = k + 1 := ⟨nRamp ti ci / 2 - 1, by omega⟩
    rw [hk, List.replicate_succ', ← List.append_assoc, List.getLast?_concat]
  · intro v hv
    unfold diffFactors at hv
    rw [List.drop_left' (by simp)] at hv
    exact List.eq_of_mem_replicate hv

/-- C8 witness: the amended shape properties at `T = 5`, `h = 2`. -/
theorem c8_witness :
    (0 : ℚ) < 2 ∧ (2 : ℚ) ≤ 5 ∧
    (List.Chain' (· ≤ ·) (diffFactors 5 2) ∧
     (diffFactors 5 2).getLast? = some 1 ∧
     ∀ v ∈ (diffFactors 5 2).drop (nRamp 5 2), v = (1 : ℝ)) :=
  ⟨by norm_num, by norm_num, c8_amended 5 2 (by norm_num) (by norm_num)⟩

/-- C8 counterexample: at `T = 5`, `h = 2` the series has 7 entries and
`n = 5`, so the claim's "final `⌈n/2⌉` entries" are the last three — but the
entry at index `7 - ⌈n/2⌉ = 4` is the last ramp sample
`1 − softplus(−4)/softplus(4) ≈ 0.9955`, which is not `1.0`: only the last
`⌊n/2⌋ = 2` entries are exact holds. -/
theorem c8_counterexample :
    ¬(∀ v ∈ (diffFactors 5 2).drop
        ((diffFactors 5 2).length - (nRamp 5 2 + 1) / 2), v = (1 : ℝ)) := by
  intro hall
  have hn : nRamp 5 2 = 5 := by
    norm_num [nRamp]
    decide
  have hlen : (diffFactors 5 2).length = 7 := by
    simp [diffFactors, hn]
  have hidx : (diffFactors 5 2).length - (nRamp 5 2 + 1) / 2 = 4 := by
    rw [hlen, hn]
  have hget : (diffFactors 5 2).get? 4 = some (diffFactor 5 2 4) := by
    unfold diffFactors
    rw [List.get?_append (by simp [hn])]
    rw [List.get?_map, List.get?_range (by rw [hn]; omega)]
    rfl
  have hmem : diffFactor 5 2 4 ∈ (diffFactors 5 2).drop 4 := by
    have hd : ((diffFactors 5 2).drop 4).get? 0 = some (diffFactor 5 2 4) := by
      rw [List.get?_drop]
      exact hget
    exact List.get?_mem hd
  rw [hidx] at hall
  have heq := hall _ hmem
  have hf4 : diffFactor 5 2 4 = 1 - softplus (-4) / softplus 4 := by
    unfold diffFactor
    norm_num
  rw [hf4] at heq
  have hs4 : 0 < softplus (-4) := by
    unfold softplus
    exact Real.log_pos (by linarith [Real.exp_pos (-4 : ℝ)])
  have hy4 := softplus_four_pos
  have hz : softplus (-4) / softplus 4 = 0 := by linarith
  rcases div_eq_zero_iff.mp hz with h | h
  · linarith
  · linarith

/-! ### C7 — the fraction of the motion reached at `t = T`

Numeric bounds on `exp` and `log` needed to separate the code's value
`1 − ln 2 / ln(1+e⁴) ≈ 0.82750` from the documented `0.83125…`. -/

lemma exp_le_inv_one_sub {x : ℝ} (h : x < 1) : Real.exp x ≤ (1 - x)⁻¹ := by
  have h2 : (0 : ℝ) < 1 - x := by linarith
  have h1 : 1 - x ≤ Real.exp (-x) := by
    have := Real.add_one_le_exp (-x)
    linarith
  have h3 : Real.exp x * (1 - x) ≤ 1 := by
    calc Real.exp x * (1 - x) ≤ Real.exp x * Real.exp (-x) :=
          mul_le_mul_of_nonneg_left h1 (Real.exp_pos x).le
      _ = 1 := by rw [← Real.exp_add]; simp
  rw [inv_eq_one_div, le_div_iff h2]
  exact h3

lemma exp_four_gt : (54.59815 : ℝ) < Real.exp 4 := by
  have h4 : Real.exp 4 = Real.exp 1 ^ 4 := by
    rw [← Real.exp_nat_mul]
    norm_num
  rw [h4]
  calc (54.59815 : ℝ) < 2.7182818283 ^ 4 := by norm_num
    _ ≤ Real.exp 1 ^ 4 := pow_le_pow_left (by norm_num) Real.exp_one_gt_d9.le 4

lemma exp_four_lt : Real.exp 4 < (54.5981501 : ℝ) := by
  have h4 : Real.exp 4 = Real.exp 1 ^ 4 := by
    rw [← Real.exp_nat_mul]
    norm_num
  rw [h4]
  calc Real.exp 1 ^ 4 ≤ 2.7182818286 ^ 4 :=
        pow_le_pow_left (Real.exp_pos 1).le Real.exp_one_lt_d9.le 4
    _ < 54.5981501 := by norm_num

lemma softplus_four_gt : (4.0175 : ℝ) < softplus 4 := by
  unfold softplus
  rw [Real.lt_log_iff_exp_lt (by positivity)]
  have h1 : Real.exp (4.0175 : ℝ) = Real.exp 4 * Real.exp 0.0175 := by
    rw [← Real.exp_add]
    norm_num
  have h2 : Real.exp (0.0175 : ℝ) ≤ (1 - 0.0175)⁻¹ := exp_le_inv_one_sub (by norm_num)
  calc Real.exp (4.0175 : ℝ) = Real.exp 4 * Real.exp 0.0175 := h1
    _ ≤ 54.5981501 * (1 - 0.0175)⁻¹ :=
        mul_le_mul exp_four_lt.le h2 (Real.exp_pos _).le (by norm_num)
    _ < 1 + 54.59815 := by norm_num
    _ < 1 + Real.exp 4 := by linarith [exp_four_gt]

lemma softplus_four_lt : softplus 4 < (4.0185 : ℝ) := by
  unfold softplus
  rw [Real.log_lt_iff_lt_exp (by positivity)]
  have h1 : Real.exp (4.0185 : ℝ) = Real.exp 4 * Real.exp 0.0185 := by
    rw [← Real.exp_add]
    norm_num
  have h2 : (1.0185 : ℝ) ≤ Real.exp 0.0185 := by
    have := Real.add_one_le_exp (0.0185 : ℝ)
    linarith
  calc 1 + Real.exp 4 < 1 + 54.5981501 := by linarith [exp_four_lt]
    _ < 54.59815 * 1.0185 := by norm_num
    _ ≤ Real.exp 4 * Real.exp 0.0185 :=
        mul_le_mul exp_four_gt.le h2 (by norm_num) (Real.exp_pos _).le
    _ = Real.exp (4.0185 : ℝ) := h1.symm

lemma softplus_neg_four_gt : (0.0179 : ℝ) < softplus (-4) := by
  unfold softplus
  rw [Real.lt_log_iff_exp_lt (by positivity)]
  have h2 : Real.exp (0.0179 : ℝ) ≤ (1 - 0.0179)⁻¹ := exp_le_inv_one_sub (by norm_num)
  have h3 : (54.5981501 : ℝ)⁻¹ < Real.exp (-4) := by
    rw [Real.exp_neg]
    exact inv_lt_inv_of_lt (Real.exp_pos 4) exp_four_lt
  calc Real.exp (0.0179 : ℝ) ≤ (1 - 0.0179)⁻¹ := h2
    _ < 1 + (54.5981501 : ℝ)⁻¹ := by norm_num
    _ < 1 + Real.exp (-4) := by linarith

lemma softplus_neg_four_lt : softplus (-4) < (0.0183157 : ℝ) := by
  unfold softplus
  have hpos : (0 : ℝ) < 1 + Real.exp (-4) := by positivity
  have h1 : Real.log (1 + Real.exp (-4)) ≤ Real.exp (-4) := by
    have := Real.log_le_sub_one_of_pos hpos
    linarith
  have h2 : Real.exp (-4) < (54.59815 : ℝ)⁻¹ := by
    rw [Real.exp_neg]
    exact inv_lt_inv_of_lt (by norm_num) exp_four_gt
  calc Real.log (1 + Real.exp (-4)) ≤ Real.exp (-4) := h1
    _ < (54.59815 : ℝ)⁻¹ := h2
    _ < 0.0183157 := by norm_num

lemma softplus_zero_eq : softplus 0 = Real.log 2 := by
  unfold softplus
  rw [Real.exp_zero]
  norm_num

lemma exp_four_fifths_gt : (2.2255 : ℝ) ≤ Real.exp (4 / 5) := by
  have h5 : Real.exp (4 / 5 : ℝ) ^ 5 = Real.exp 4 := by
    rw [← Real.exp_nat_mul]
    norm_num
  apply le_of_pow_le_pow_left (by norm_num : (5 : ℕ) ≠ 0) (Real.exp_pos _).le
  rw [h5]
  calc (2.2255 : ℝ) ^ 5 ≤ 54.59815 := by norm_num
    _ ≤ Real.exp 4 := exp_four_gt.le

lemma exp_point38_gt : (1.44934 : ℝ) < Real.exp 0.38 := by
  have h16 : Real.exp (0.38 : ℝ) = Real.exp 0.02375 ^ 16 := by
    rw [← Real.exp_nat_mul]
    norm_num
  have h2 : (1.02375 : ℝ) ≤ Real.exp 0.02375 := by
    have := Real.add_one_le_exp (0.02375 : ℝ)
    linarith
  calc (1.44934 : ℝ) < 1.02375 ^ 16 := by norm_num
    _ ≤ Real.exp 0.02375 ^ 16 := pow_le_pow_left (by norm_num) h2 16
    _ = Real.exp 0.38 := h16.symm

lemma softplus_neg_four_fifths_lt : softplus (-(4 / 5)) < (0.38 : ℝ) := by
  unfold softplus
  rw [Real.log_lt_iff_lt_exp (by positivity)]
  have h1 : Real.exp (-(4 / 5) : ℝ) = (Real.exp (4 / 5))⁻¹ := Real.exp_neg _
  have h2 : (Real.exp (4 / 5 : ℝ))⁻¹ ≤ (2.2255 : ℝ)⁻¹ :=
    inv_le_inv_of_le (by norm_num) exp_four_fifths_gt
  calc 1 + Real.exp (-(4 / 5) : ℝ) ≤ 1 + (2.2255 : ℝ)⁻¹ := by
        rw [h1]
        linarith
    _ < 1.44934 := by norm_num
    _ < Real.exp 0.38 := exp_point38_gt

/-- C7: at `T = 5`, `h = 1` (so `T/h = 5`) the factor sample at `t = T` —
0-based index `T/h - 1 = 4`, the sample meant by the claim's "the profile
reaches about 83 % of the motion at `t = T`" — equals
`1 − ln 2 / ln(1 + e⁴) < 0.8302`, so it is *not* within `10⁻³` of `0.8312`;
the sample at 0-based index `⌊T/h⌋ = 5` equals
`1 − softplus(−4/5)/softplus 4 > 0.8322`, also not within `10⁻³`; while the
value computed by the formula in the source's own comment
(`softplusDocFactorAtT`) *is* within `10⁻³` of `0.8312`.  The code therefore
contradicts its own documentation: the implementation drops the
`softplus(−4)` offset that the comment's normalisation uses. -/
theorem c7_doc_vs_code :
    (diffFactors 5 1).get? 4 = some (1 - Real.log 2 / softplus 4) ∧
    ¬(|1 - Real.log 2 / softplus 4 - 0.8312| ≤ 1 / 1000) ∧
    (diffFactors 5 1).get? 5 = some (1 - softplus (-(4 / 5)) / softplus 4) ∧
    ¬(|1 - softplus (-(4 / 5)) / softplus 4 - 0.8312| ≤ 1 / 1000) ∧
    |softplusDocFactorAtT - 0.8312| ≤ 1 / 1000 := by
  have hn : nRamp 5 1 = 10 := by
    norm_num [nRamp]
    decide
  have hlog2l := Real.log_two_gt_d9
  have hlog2u := Real.log_two_lt_d9
  have hy4l := softplus_four_gt
  have hy4u := softplus_four_lt
  have hm4l := softplus_neg_four_gt
  have hm4u := softplus_neg_four_lt
  refine ⟨?_, ?_, ?_, ?_, ?_⟩
  · unfold diffFactors
    rw [List.get?_append (by simp [hn]), List.get?_map,
      List.get?_range (by rw [hn]; omega)]
    have hv : diffFactor 5 1 4 = 1 - Real.log 2 / softplus 4 := by
      unfold diffFactor
      rw [show (-((5 : ℚ) : ℝ) + (((4 : ℕ) : ℝ) + 1) * ((1 : ℚ) : ℝ)) / ((5 : ℚ) : ℝ) * 4
          = 0 from by push_cast; ring]
      rw [neg_zero, softplus_zero_eq]
    rw [Option.map_some', hv]
  · intro habs
    rw [abs_le] at habs
    have hq : (0.6931471803 : ℝ) / 4.0185 ≤ Real.log 2 / softplus 4 :=
      div_le_div (by linarith) hlog2l.le softplus_four_pos hy4u.le
    have hc : (1 : ℝ) - 0.6931471803 / 4.0185 < 0.8302 := by norm_num
    linarith [habs.1]
  · unfold diffFactors
    rw [List.get?_append (by simp [hn]), List.get?_map,
      List.get?_range (by rw [hn]; omega)]
    have hv : diffFactor 5 1 5 = 1 - softplus (-(4 / 5)) / softplus 4 := by
      unfold diffFactor
      rw [show (-((5 : ℚ) : ℝ) + (((5 : ℕ) : ℝ) + 1) * ((1 : ℚ) : ℝ)) / ((5 : ℚ) : ℝ) * 4
          = 4 / 5 from by push_cast; ring]
    rw [Option.map_some', hv]
  · intro habs
    rw [abs_le] at habs
    have hq : softplus (-(4 / 5)) / softplus 4 ≤ (0.38 : ℝ) / 4.0175 :=
      div_le_div (by norm_num) softplus_neg_four_fifths_lt.le (by norm_num) hy4l.le
    have hc : (0.8322 : ℝ) < 1 - 0.38 / 4.0175 := by norm_num
    linarith [habs.2]
  · unfold softplusDocFactorAtT
    rw [softplus_zero_eq]
    have hnuml : (0.6748314803 : ℝ) ≤ Real.log 2 - softplus (-4) := by linarith
    have hnumu : Real.log 2 - softplus (-4) ≤ (0.6752471808 : ℝ) := by linarith
    have hdenl : (3.9991843 : ℝ) ≤ softplus 4 - softplus (-4) := by linarith
    have hdenu : softplus 4 - softplus (-4) ≤ (4.0006 : ℝ) := by linarith
    have hru : (Real.log 2 - softplus (-4)) / (softplus 4 - softplus (-4)) ≤
        (0.6752471808 : ℝ) / 3.9991843 :=
      div_le_div (by norm_num) hnumu (by norm_num) hdenl
    have hrl : (0.6748314803 : ℝ) / 4.0006 ≤
        (Real.log 2 - softplus (-4)) / (softplus 4 - softplus (-4)) :=
      div_le_div (by linarith) hnuml (by linarith) hdenu
    rw [abs_le]
    constructor
    · have : (0.8312 : ℝ) - 1 / 1000 ≤ 1 - 0.6752471808 / 3.9991843 := by norm_num
      linarith
    · have : (1 : ℝ) - 0.6748314803 / 4.0006 ≤ 0.8312 + 1 / 1000 := by norm_num
      linarith

end Cobotta
